import Mathlib

/-!
Shallow embedding of the route-optimization subsystem of the discra backend
(`src/backend/geocode_service.py`, `src/backend/route_service.py`,
`src/backend/routers/routes.py`).

Python floats are modelled as rationals (all arithmetic performed by the
embedded code on them is exact rational arithmetic), except for the haversine
matrix provider, whose trigonometry is modelled over the reals.  External
libraries (`hashlib.sha256`, the OR-Tools routing solver) are modelled as
abstract function parameters: no claim depends on their internals, only on
how the repository's code drives them.
-/

namespace Discra

/-! ## String helpers (Python `str.strip`, `str.split`, `str.lower`)

`geocode_service._normalize_address` is
`" ".join(address.strip().split()).lower()`.  Whitespace is modelled with
`Char.isWhitespace`.
-/

/-- Python `str.strip()` on a character list: drop leading and trailing
whitespace. -/
def pyStripList (l : List Char) : List Char :=
  ((l.dropWhile Char.isWhitespace).reverse.dropWhile Char.isWhitespace).reverse

/-- Python `str.strip()` on a string. -/
def pyStrip (s : String) : String :=
  String.mk (pyStripList s.toList)

/-- Worker for Python `str.split()`: scans the characters, accumulating the
current word in reverse. -/
def pySplitAux : List Char → List Char → List (List Char)
  | [], cur => if cur = [] then [] else [cur.reverse]
  | c :: r, cur =>
    if c.isWhitespace then
      if cur = [] then pySplitAux r [] else cur.reverse :: pySplitAux r []
    else pySplitAux r (c :: cur)

/-- Python `str.split()` with no argument: split on runs of whitespace,
producing no empty words. -/
def pySplit (l : List Char) : List (List Char) :=
  pySplitAux l []

/-- `geocode_service._normalize_address`: trim, collapse internal whitespace
to single spaces, lowercase. -/
def normalizeAddress (s : String) : String :=
  String.mk ((List.intercalate [' '] (pySplit (pyStripList s.toList))).map Char.toLower)

/-! ## Geocode data model (`geocode_service.GeocodePoint`) -/

/-- `geocode_service.GeocodePoint` (floats as rationals). -/
structure GeocodePoint where
  lat : ℚ
  lng : ℚ
  source : String
  deriving DecidableEq, Repr

/-- `geocode_service._is_valid_lat_lng`. -/
def isValidLatLng (lat lng : ℚ) : Bool :=
  decide (-90 ≤ lat) && decide (lat ≤ 90) && decide (-180 ≤ lng) && decide (lng ≤ 180)

/-! ## Inline lat,lng parsing (`geocode_service._LAT_LNG_RE` + float())

The regex is anchored: optional whitespace, a number `-?\d+(\.\d+)?`, optional
whitespace, a comma, optional whitespace, a second number, optional
whitespace, end of string.  `float()` of the matched decimal literal is
modelled exactly as a rational.
-/

/-- Skip leading whitespace (the regex fragment `\s*`). -/
def skipWs (l : List Char) : List Char :=
  l.dropWhile Char.isWhitespace

/-- Numeric value of a digit run. -/
def digitsToNat (ds : List Char) : Nat :=
  ds.foldl (fun a c => a * 10 + (c.toNat - 48)) 0

/-- Parse the regex fragment `-?\d+(?:\.\d+)?` greedily at the head of the
list, returning the (exact) rational value and the rest of the input. -/
def parseNumber (l : List Char) : Option (ℚ × List Char) :=
  let (neg, l1) :=
    match l with
    | '-' :: r => (true, r)
    | _ => (false, l)
  let ds := l1.takeWhile Char.isDigit
  let r := l1.dropWhile Char.isDigit
  if ds = [] then none
  else
    let ip : ℚ := (digitsToNat ds : ℤ)
    match r with
    | '.' :: r2 =>
      let fs := r2.takeWhile Char.isDigit
      let r3 := r2.dropWhile Char.isDigit
      if fs = [] then none
      else
        let v : ℚ := ip + (digitsToNat fs : ℚ) / ((10 : ℚ) ^ fs.length)
        some (if neg then -v else v, r3)
    | _ => some (if neg then -ip else ip, r)

/-- Full-string match of `_LAT_LNG_RE`, returning the two captured numbers. -/
def parseInlinePair (s : String) : Option (ℚ × ℚ) :=
  match parseNumber (skipWs s.toList) with
  | none => none
  | some (lat, r1) =>
    match skipWs r1 with
    | ',' :: r2 =>
      match parseNumber (skipWs r2) with
      | none => none
      | some (lng, r3) => if skipWs r3 = [] then some (lat, lng) else none
    | _ => none

/-- `geocode_service._parse_inline_lat_lng`. -/
def parseInlineLatLng (address : String) : Option GeocodePoint :=
  match parseInlinePair address with
  | none => none
  | some (lat, lng) =>
    if isValidLatLng lat lng then some ⟨lat, lng, "inline-latlng"⟩ else none

/-! ## Hash-derived pseudo-coordinates (`geocode_service._hash_to_point`)

`hashlib.sha256` (Python standard library, outside this repository) is
modelled as an abstract digest function producing a byte list; real SHA-256
always yields 32 bytes, each below 256.
-/

/-- Python `int.from_bytes(bs, "big")`. -/
def intFromBytesBig (bs : List Nat) : Nat :=
  bs.foldl (fun a b => a * 256 + b) 0

/-- `geocode_service._hash_to_point`, parameterised by the digest function
that models `hashlib.sha256(...).digest()`. -/
def hashToPoint (digest : String → List Nat) (normalizedAddress : String) :
    GeocodePoint :=
  let d := digest normalizedAddress
  let latSeed : ℚ := (intFromBytesBig ((d.drop 0).take 4) : ℤ)
  let lngSeed : ℚ := (intFromBytesBig ((d.drop 4).take 4) : ℤ)
  let lat : ℚ := 24.5 + latSeed / (0xFFFFFFFF : ℚ) * 24.0
  let lng : ℚ := -124.8 + lngSeed / (0xFFFFFFFF : ℚ) * 58.5
  ⟨lat, lng, "hash-dev"⟩

/-! ## In-memory geocoder (`geocode_service.InMemoryAddressGeocoder`)

The two dictionaries `_overrides : Dict[str, GeocodePoint]` and
`_failures : Dict[str, bool]` are modelled as an association list and a key
list; dictionary assignment replaces the binding, `pop` removes it.
-/

/-- Cache state of `InMemoryAddressGeocoder`. -/
structure GeocoderState where
  overrides : List (String × GeocodePoint)
  failures : List String
  deriving Repr

/-- The state after `__init__` (both dictionaries empty). -/
def emptyGeocoderState : GeocoderState := ⟨[], []⟩

/-- `InMemoryAddressGeocoder.geocode` (a read-only method: it never writes
the caches). -/
def geocode (digest : String → List Nat) (st : GeocoderState)
    (address : String) : Option GeocodePoint :=
  if address = "" ∨ pyStrip address = "" then none
  else
    match parseInlineLatLng address with
    | some p => some p
    | none =>
      let n := normalizeAddress address
      if st.failures.contains n then none
      else
        match st.overrides.lookup n with
        | some p => some p
        | none => some (hashToPoint digest n)

/-- `InMemoryAddressGeocoder.set_override`. -/
def setOverride (st : GeocoderState) (address : String) (lat lng : ℚ) :
    GeocoderState :=
  let n := normalizeAddress address
  { overrides := (n, ⟨lat, lng, "in-memory-override"⟩) ::
      st.overrides.filter (fun p => p.1 ≠ n),
    failures := st.failures.filter (fun k => k ≠ n) }

/-- `InMemoryAddressGeocoder.set_failure`. -/
def setFailure (st : GeocoderState) (address : String) : GeocoderState :=
  let n := normalizeAddress address
  { overrides := st.overrides.filter (fun p => p.1 ≠ n),
    failures := n :: st.failures.filter (fun k => k ≠ n) }

/-- One cache-mutating operation of the in-memory geocoder. -/
inductive GeocoderOp where
  | override (address : String) (lat lng : ℚ)
  | failure (address : String)
  | reset
  deriving Repr

/-- Apply one operation to the cache state. -/
def applyOp (st : GeocoderState) : GeocoderOp → GeocoderState
  | .override a lat lng => setOverride st a lat lng
  | .failure a => setFailure st a
  | .reset => emptyGeocoderState

/-- Apply a sequence of operations starting from a given state. -/
def applyOps (st : GeocoderState) (ops : List GeocoderOp) : GeocoderState :=
  ops.foldl applyOp st

/-! ## Haversine matrix provider (`route_service`)

`haversine_meters` and `InMemoryRouteMatrixProvider.calculate_matrix` use
floating-point trigonometry; they are modelled over the reals.  A point in
the Python code is a two-element list `[lng, lat]`; it is modelled as a pair
whose first component is index 0 (`lng`) and second is index 1 (`lat`).
-/

noncomputable section Haversine

/-- `math.radians`. -/
def radians (x : ℝ) : ℝ := x * Real.pi / 180

/-- `math.atan2 y x`: the argument of the complex number `x + y·i` (this is
the standard two-argument arctangent, including its sign and zero
conventions). -/
def atan2 (y x : ℝ) : ℝ := Complex.arg ⟨x, y⟩

/-- `route_service.haversine_meters`. -/
def haversine_meters (aLat aLng bLat bLng : ℝ) : ℝ :=
  let radius : ℝ := 6371000
  let phi1 := radians aLat
  let phi2 := radians bLat
  let dPhi := radians (bLat - aLat)
  let dLambda := radians (bLng - aLng)
  let h := Real.sin (dPhi / 2) ^ 2 +
    Real.cos phi1 * Real.cos phi2 * Real.sin (dLambda / 2) ^ 2
  2 * radius * atan2 (Real.sqrt h) (Real.sqrt (1 - h))

/-- `InMemoryRouteMatrixProvider._SPEED_METERS_PER_SECOND`. -/
def speedMetersPerSecond : ℝ := 13.89

/-- `route_service.RouteMatrixResult` with real-valued matrices. -/
structure RouteMatrixResult where
  source : String
  distance_meters : List (List ℝ)
  duration_seconds : List (List ℝ)

/-- `InMemoryRouteMatrixProvider.calculate_matrix`: for each ordered pair of
points, zero on the diagonal, otherwise haversine distance (with the point
read as `[lng, lat]`), and duration equal to distance over the fixed speed. -/
def calculate_matrix (points : List (ℝ × ℝ)) : RouteMatrixResult where
  source := "haversine-dev"
  distance_meters :=
    (List.range points.length).map fun i =>
      (List.range points.length).map fun j =>
        if i = j then 0
        else
          haversine_meters (points.getD i (0, 0)).2 (points.getD i (0, 0)).1
            (points.getD j (0, 0)).2 (points.getD j (0, 0)).1
  duration_seconds :=
    (List.range points.length).map fun i =>
      (List.range points.length).map fun j =>
        if i = j then 0
        else
          haversine_meters (points.getD i (0, 0)).2 (points.getD i (0, 0)).1
            (points.getD j (0, 0)).2 (points.getD j (0, 0)).1 /
            speedMetersPerSecond

end Haversine

/-! ## Solver time limit (`route_service._optimization_timeout_seconds`)

The environment variable is an `Option String`; Python `int(str)` is
modelled by `pyInt` (strip, optional sign, digits with single underscores
between digits).
-/

/-- Digit-run tail of Python `int()` literal parsing: after a first digit,
the remainder is digits with single underscores allowed only between
digits. -/
def pyDigitsAux (acc : Nat) : List Char → Option Nat
  | [] => some acc
  | '_' :: rest =>
    match rest with
    | [] => none
    | c :: rest2 =>
      if c.isDigit then pyDigitsAux (acc * 10 + (c.toNat - 48)) rest2 else none
  | c :: rest =>
    if c.isDigit then pyDigitsAux (acc * 10 + (c.toNat - 48)) rest else none

/-- Python `int(s)` for a string: strip whitespace, optional sign, then a
nonempty underscore-grouped digit run; `none` models `ValueError`. -/
def pyInt (s : String) : Option Int :=
  let chars := pyStripList s.toList
  let (sign, rest) :=
    match chars with
    | '+' :: r => ((1 : Int), r)
    | '-' :: r => ((-1 : Int), r)
    | r => ((1 : Int), r)
  match rest with
  | [] => none
  | c :: r =>
    if c.isDigit then (pyDigitsAux (c.toNat - 48) r).map (fun n => sign * n)
    else none

/-- `route_service._optimization_timeout_seconds`, with the value of
`ROUTE_OPTIMIZATION_TIMEOUT_SECONDS` passed in (`none` = unset). -/
def optimizationTimeoutSeconds (env : Option String) : Int :=
  match env with
  | none => 5
  | some s =>
    if s = "" then 5
    else
      match pyInt s with
      | none => 5
      | some t => max 1 (min t 30)

/-! ## Open-route solver (`route_service.solve_open_route`)

The OR-Tools objects (`RoutingIndexManager`, `RoutingModel`) are external;
what the repository's code contributes is the augmented cost matrix and the
manager configuration, captured in `RoutingSetup`, plus the degenerate-size
early returns.  Solving and walking the solution is modelled as an abstract
function from the setup to an optional node sequence.
-/

/-- Python `int(x)` on a float value: truncation toward zero. -/
def pyTrunc (q : ℚ) : Int := if 0 ≤ q then ⌊q⌋ else ⌈q⌉

/-- The data handed to OR-Tools: the `(N+1) × (N+1)` cost matrix and the
`RoutingIndexManager(node_count + 1, 1, [start_index], [end_node])`
arguments. -/
structure RoutingSetup where
  matrix : List (List Int)
  nodeCount : Nat
  vehicles : Nat
  starts : List Nat
  ends : List Nat
  deriving Repr, DecidableEq

/-- The augmented matrix of `solve_open_route`: real-to-real entries are the
truncated durations, every real node reaches the synthetic end node `N` at
cost 0, the end node reaches every real node at cost `10^9`, and itself at
cost 0. -/
def augmentedMatrix (duration_seconds : List (List ℚ)) : List (List Int) :=
  let n := duration_seconds.length
  (List.range (n + 1)).map fun i =>
    (List.range (n + 1)).map fun j =>
      if i < n then
        if j < n then pyTrunc ((duration_seconds.getD i []).getD j 0)
        else 0
      else if j < n then 10 ^ 9
      else 0

/-- The setup `solve_open_route` builds for `N ≥ 2` nodes. -/
def buildSetup (duration_seconds : List (List ℚ)) (start_index : Nat) :
    RoutingSetup where
  matrix := augmentedMatrix duration_seconds
  nodeCount := duration_seconds.length + 1
  vehicles := 1
  starts := [start_index]
  ends := [duration_seconds.length]

/-- `route_service.solve_open_route`, with the OR-Tools search-and-walk
abstracted as `solveWith` (which yields the already-extracted node sequence,
or `none` when the solver reports no solution, turned into the
`RuntimeError`). -/
def solve_open_route (solveWith : RoutingSetup → Option (List Nat))
    (duration_seconds : List (List ℚ)) (start_index : Nat) :
    Except String (List Nat) :=
  if duration_seconds.length = 0 then .ok []
  else if duration_seconds.length = 1 then .ok [0]
  else
    match solveWith (buildSetup duration_seconds start_index) with
    | none => .error "Unable to solve route optimization problem"
    | some seq => .ok seq

/-! ## Stop resolution from assigned orders (`routers/routes.py`)

`_stops_from_assigned_orders`: iterate the driver's assigned orders,
geocoding each delivery address through a per-request cache, collecting the
ids of every order whose address is empty or fails to geocode, and raising a
single `HTTPException` listing the full set if any failed.  The geocoder is
passed in as a pure function (`AddressGeocoder.geocode` of the configured
backend); errors are modelled with `Except`.
-/

/-- An assigned order as consumed by the router (`order.id`,
`order.delivery`). -/
structure Order where
  id : String
  delivery : Option String
  deriving Repr, DecidableEq

/-- `schemas.RouteStopInput`. -/
structure RouteStopInput where
  order_id : String
  lat : ℚ
  lng : ℚ
  address : Option String
  deriving Repr, DecidableEq

/-- The loop body of `_stops_from_assigned_orders`: threads the per-request
geocode cache, the unresolved-id list and the stop list through the assigned
orders. -/
def stopsLoop (g : String → Option GeocodePoint) :
    List Order → List (String × Option GeocodePoint) → List String →
    List RouteStopInput → List String × List RouteStopInput
  | [], _, unresolved, stops => (unresolved, stops)
  | o :: rest, cache, unresolved, stops =>
    let delivery := pyStrip (o.delivery.getD "")
    if delivery = "" then
      stopsLoop g rest cache (unresolved ++ [o.id]) stops
    else
      let hit := cache.lookup delivery
      let point := match hit with
        | some p => p
        | none => g delivery
      let cache2 := match hit with
        | some _ => cache
        | none => cache ++ [(delivery, g delivery)]
      match point with
      | none => stopsLoop g rest cache2 (unresolved ++ [o.id]) stops
      | some p =>
        stopsLoop g rest cache2 unresolved
          (stops ++ [⟨o.id, p.lat, p.lng, o.delivery⟩])

/-- `routers.routes._stops_from_assigned_orders` (the assigned-order list is
passed in; `Except.error` models the raised `HTTPException` detail). -/
def stopsFromAssignedOrders (g : String → Option GeocodePoint)
    (assigned : List Order) : Except String (List RouteStopInput) :=
  if assigned = [] then .error "No assigned orders found for driver"
  else
    let r := stopsLoop g assigned [] [] []
    if r.1 = [] then .ok r.2
    else
      .error ("Unable to geocode delivery addresses for assigned orders: " ++
        String.intercalate ", " r.1)

/-- Whether `_stops_from_assigned_orders` counts an order as unresolved: its
stripped delivery address is empty, or the geocoder returns no point for
it. -/
def unresolvedOrder (g : String → Option GeocodePoint) (o : Order) : Bool :=
  pyStrip (o.delivery.getD "") = "" || (g (pyStrip (o.delivery.getD ""))).isNone

/-! ## Response assembly (`routers.routes.optimize_driver_route`)

The post-solve part of the endpoint: walk the solver's node sequence,
skipping the start node 0, mapping node `k` to `stops[k-1]`, reading each
leg's distance/duration from the previous node's matrix row, numbering the
emitted stops densely from 1, with the single-stop fallback when the walk
emitted nothing.  Matrix values are rationals here (their numeric content is
irrelevant to the structural claims); `round(x, 2)` is modelled as
round-half-even at two decimals.
-/

/-- `schemas.RouteOptimizedStop`. -/
structure RouteOptimizedStop where
  sequence : Nat
  order_id : String
  lat : ℚ
  lng : ℚ
  address : Option String
  distance_from_previous_meters : ℚ
  duration_from_previous_seconds : ℚ
  deriving Repr, DecidableEq

/-- `schemas.RouteOptimizeResponse`. -/
structure RouteOptimizeResponse where
  matrix_source : String
  total_distance_meters : ℚ
  total_duration_seconds : ℚ
  ordered_stops : List RouteOptimizedStop
  deriving Repr, DecidableEq

/-- Python `round(x, 2)`: round half to even at two decimal places. -/
def round2 (q : ℚ) : ℚ :=
  let s := q * 100
  let n := ⌊s⌋
  let frac := s - n
  let r : ℤ :=
    if frac < 1 / 2 then n
    else if 1 / 2 < frac then n + 1
    else if n % 2 = 0 then n else n + 1
  (r : ℚ) / 100

/-- Junk stop used to totalise the Python indexing `stops[node - 1]` (the
claims' hypotheses keep every index in range). -/
def defaultStop : RouteStopInput := ⟨"", 0, 0, none⟩

/-- Matrix cell access `m[i][j]` (totalised with 0). -/
def cell (m : List (List ℚ)) (i j : Nat) : ℚ :=
  (m.getD i []).getD j 0

/-- The assembly loop of `optimize_driver_route`: state is the previous
node, the emitted stops and the running totals. -/
def assembleLoop (stops : List RouteStopInput) (dist dur : List (List ℚ)) :
    List Nat → Nat → List RouteOptimizedStop → ℚ → ℚ →
    List RouteOptimizedStop × ℚ × ℚ
  | [], _, acc, td, tt => (acc, td, tt)
  | node :: rest, prev, acc, td, tt =>
    if node = 0 then assembleLoop stops dist dur rest prev acc td tt
    else
      let stop := stops.getD (node - 1) defaultStop
      let d := cell dist prev node
      let t := cell dur prev node
      assembleLoop stops dist dur rest node
        (acc ++ [⟨acc.length + 1, stop.order_id, stop.lat, stop.lng,
          stop.address, d, t⟩])
        (td + d) (tt + t)

/-- The post-solve portion of `optimize_driver_route`: given the request's
stops, the matrices and the solver's node sequence, build the response
(including the single-stop fallback and the 2-decimal rounding of the
totals). -/
def assembleResponse (source : String) (stops : List RouteStopInput)
    (dist dur : List (List ℚ)) (seq : List Nat) : RouteOptimizeResponse :=
  let prev0 := seq.headD 0
  let r := assembleLoop stops dist dur seq prev0 [] 0 0
  let ordered := r.1
  let td := r.2.1
  let tt := r.2.2
  if ordered = [] ∧ stops ≠ [] then
    let stop := stops.getD 0 defaultStop
    let d := if 1 < dist.length then cell dist 0 1 else 0
    let t := if 1 < dur.length then cell dur 0 1 else 0
    { matrix_source := source
      total_distance_meters := round2 (td + d)
      total_duration_seconds := round2 (tt + t)
      ordered_stops := [⟨1, stop.order_id, stop.lat, stop.lng, stop.address,
        d, t⟩] }
  else
    { matrix_source := source
      total_distance_meters := round2 td
      total_duration_seconds := round2 tt
      ordered_stops := ordered }

/-! ## Helper lemmas -/

/-- Indexing a `map` over `range` with a default. -/
theorem getD_map_range {α : Type} (f : ℕ → α) (d : α) {n i : ℕ} (h : i < n) :
    ((List.range n).map f).getD i d = f i := by
  rw [List.getD_eq_getElem _ _ (by simpa using h)]
  simp

/-- `List.lookup` only returns stored bindings. -/
theorem lookup_mem {α β : Type} [BEq α] [LawfulBEq α] {l : List (α × β)} {k : α}
    {v : β} (h : l.lookup k = some v) : (k, v) ∈ l := by
  induction l with
  | nil => simp [List.lookup] at h
  | cons p t ih =>
    obtain ⟨a, b⟩ := p
    rw [List.lookup] at h
    by_cases hk : k == a
    · rw [hk] at h
      simp only [Option.some.injEq] at h
      subst h
      simp [eq_of_beq hk]
    · rw [Bool.not_eq_true] at hk
      rw [hk] at h
      simp [ih h]

/-- `cellInt m i j` reads `m[i][j]` in an integer matrix (default 0). -/
def cellInt (m : List (List Int)) (i j : Nat) : Int := (m.getD i []).getD j 0

/-! ## C4: solver time limit -/

/-- C4: the effective solver time limit is 5 when the environment variable
is unset, empty or unparsable, otherwise the configured integer clamped to
`[1, 30]`; in every case it lies between 1 and 30 inclusive. -/
theorem optimizationTimeout_spec (env : Option String) :
    (1 ≤ optimizationTimeoutSeconds env ∧ optimizationTimeoutSeconds env ≤ 30) ∧
    optimizationTimeoutSeconds none = 5 ∧
    (∀ s, pyInt s = none → optimizationTimeoutSeconds (some s) = 5) ∧
    (∀ s t, s ≠ "" → pyInt s = some t →
      optimizationTimeoutSeconds (some s) = max 1 (min t 30)) := by
  refine ⟨?_, rfl, ?_, ?_⟩
  · cases env with
    | none => simp [optimizationTimeoutSeconds]
    | some s =>
      by_cases hs : s = ""
      · simp [optimizationTimeoutSeconds, hs]
      · cases hp : pyInt s with
        | none => simp [optimizationTimeoutSeconds, hs, hp]
        | some t =>
          simp only [optimizationTimeoutSeconds, hs, hp, if_neg hs]
          exact ⟨le_max_left _ _, max_le (by norm_num) (min_le_right _ _)⟩
  · intro s hp
    by_cases hs : s = "" <;> simp [optimizationTimeoutSeconds, hs, hp]
  · intro s t hs hp
    simp [optimizationTimeoutSeconds, hs, hp]

/-- Witness for C4 at the concrete values unset, `"abc"` (unparsable),
`"99"` (clamped) and `"7"` (in range). -/
theorem optimizationTimeout_spec_witness :
    (1 ≤ optimizationTimeoutSeconds (some "99") ∧
      optimizationTimeoutSeconds (some "99") ≤ 30) ∧
    optimizationTimeoutSeconds (some "abc") = 5 ∧
    optimizationTimeoutSeconds (some "7") = max 1 (min 7 30) :=
  ⟨(optimizationTimeout_spec (some "99")).1,
   (optimizationTimeout_spec (some "abc")).2.2.1 "abc" (by decide),
   (optimizationTimeout_spec (some "7")).2.2.2 "7" 7 (by decide) (by decide)⟩

/-! ## C3: degenerate solver sizes (corrected) -/

/-- Counterexample to C3 as stated: on a 1×1 matrix with `start_index = 1`
the code returns `[0]`, not `[start_index] = [1]`. -/
theorem solve_open_route_degenerate_counterexample :
    solve_open_route (fun _ => none) [[(0 : ℚ)]] 1 = .ok [0] ∧
    (Except.ok [0] : Except String (List Nat)) ≠ .ok [1] := by
  constructor
  · rfl
  · simp

/-- C3 (amended): a 0×0 duration matrix yields the empty sequence for every
`start_index`; a 1×1 matrix yields `[0]`, which equals `[start_index]`
exactly when `start_index = 0` (the only index of a 1×1 matrix). -/
theorem solve_open_route_degenerate (sw : RoutingSetup → Option (List Nat))
    (dur : List (List ℚ)) (s : Nat) :
    (dur.length = 0 → solve_open_route sw dur s = .ok []) ∧
    (dur.length = 1 → solve_open_route sw dur s = .ok [0]) ∧
    (dur.length = 1 → s = 0 → solve_open_route sw dur s = .ok [s]) := by
  refine ⟨fun h => ?_, fun h => ?_, fun h hs => ?_⟩
  · simp [solve_open_route, h]
  · simp [solve_open_route, h]
  · subst hs; simp [solve_open_route, h]

/-- Witness for the amended C3 at a concrete empty and a concrete 1×1
matrix. -/
theorem solve_open_route_degenerate_witness :
    solve_open_route (fun _ => none) ([] : List (List ℚ)) 3 = .ok [] ∧
    solve_open_route (fun _ => none) [[(7 : ℚ)]] 0 = .ok [0] ∧
    solve_open_route (fun _ => none) [[(7 : ℚ)]] 0 = .ok [(0 : ℕ)] :=
  ⟨(solve_open_route_degenerate (fun _ => none) [] 3).1 rfl,
   (solve_open_route_degenerate (fun _ => none) [[(7 : ℚ)]] 0).2.1 rfl,
   (solve_open_route_degenerate (fun _ => none) [[(7 : ℚ)]] 0).2.2 rfl rfl⟩

/-! ## C2: augmented matrix and solver configuration -/

/-- C2: for an `N×N` duration matrix with `N ≥ 2` and a valid start index,
the augmented matrix is `(N+1)×(N+1)` with free edges into the synthetic end
node `N`, sentinel `10^9` edges out of it and a zero self-loop, and the
manager is configured with one vehicle starting at `start_index` and ending
at node `N`; `solve_open_route` delegates to the abstract solver on exactly
this setup. -/
theorem buildSetup_spec (duration : List (List ℚ)) (s : Nat)
    (hn : 2 ≤ duration.length) (hs : s < duration.length) :
    (buildSetup duration s).matrix.length = duration.length + 1 ∧
    (∀ row ∈ (buildSetup duration s).matrix, row.length = duration.length + 1) ∧
    (∀ i, i < duration.length →
      cellInt (buildSetup duration s).matrix i duration.length = 0) ∧
    (∀ j, j < duration.length →
      cellInt (buildSetup duration s).matrix duration.length j = 10 ^ 9) ∧
    cellInt (buildSetup duration s).matrix duration.length duration.length = 0 ∧
    (buildSetup duration s).vehicles = 1 ∧
    (buildSetup duration s).starts = [s] ∧
    (buildSetup duration s).ends = [duration.length] ∧
    (buildSetup duration s).nodeCount = duration.length + 1 ∧
    (∀ sw, solve_open_route sw duration s =
      match sw (buildSetup duration s) with
      | none => .error "Unable to solve route optimization problem"
      | some q => .ok q) := by
  refine ⟨?_, ?_, ?_, ?_, ?_, rfl, rfl, rfl, rfl, ?_⟩
  · simp [buildSetup, augmentedMatrix]
  · intro row hrow
    simp only [buildSetup, augmentedMatrix, List.mem_map, List.mem_range] at hrow
    obtain ⟨i, _, rfl⟩ := hrow
    simp
  · intro i hi
    rw [cellInt]
    simp only [buildSetup, augmentedMatrix]
    rw [getD_map_range _ _ (by omega), getD_map_range _ _ (by omega)]
    simp [hi]
  · intro j hj
    rw [cellInt]
    simp only [buildSetup, augmentedMatrix]
    rw [getD_map_range _ _ (by omega), getD_map_range _ _ (by omega)]
    simp [hj]
  · rw [cellInt]
    simp only [buildSetup, augmentedMatrix]
    rw [getD_map_range _ _ (by omega), getD_map_range _ _ (by omega)]
    simp
  · intro sw
    have h0 : ¬duration.length = 0 := by omega
    have h1 : ¬duration.length = 1 := by omega
    simp [solve_open_route, h0, h1]

/-- Witness for C2 at a concrete 2×2 duration matrix. -/
theorem buildSetup_spec_witness :
    cellInt (buildSetup [[(0 : ℚ), 1], [1, 0]] 0).matrix 0 2 = 0 ∧
    cellInt (buildSetup [[(0 : ℚ), 1], [1, 0]] 0).matrix 2 0 = 10 ^ 9 ∧
    cellInt (buildSetup [[(0 : ℚ), 1], [1, 0]] 0).matrix 2 2 = 0 ∧
    (buildSetup [[(0 : ℚ), 1], [1, 0]] 0).starts = [0] ∧
    (buildSetup [[(0 : ℚ), 1], [1, 0]] 0).ends = [2] := by
  have h := buildSetup_spec [[(0 : ℚ), 1], [1, 0]] 0 (by norm_num) (by norm_num)
  exact ⟨h.2.2.1 0 (by norm_num), h.2.2.2.1 0 (by norm_num), h.2.2.2.2.1,
    h.2.2.2.2.2.2.1, h.2.2.2.2.2.2.2.1⟩

/-! ## C9: hash-derived coordinates stay in the fixed rectangle -/

/-- Big-endian byte accumulation is bounded by `(acc+1) · 256^len`. -/
theorem foldl_bytes_lt (l : List Nat) (hb : ∀ b ∈ l, b < 256) :
    ∀ acc : Nat,
      l.foldl (fun a b => a * 256 + b) acc < (acc + 1) * 256 ^ l.length := by
  induction l with
  | nil => intro acc; simp
  | cons b r ih =>
    intro acc
    have hbb : b < 256 := hb b (by simp)
    have hr : ∀ x ∈ r, x < 256 := fun x hx => hb x (by simp [hx])
    have h1 := ih hr (acc * 256 + b)
    have h2 : (acc * 256 + b + 1) * 256 ^ r.length ≤
        (acc + 1) * 256 ^ (r.length + 1) := by
      have : acc * 256 + b + 1 ≤ (acc + 1) * 256 := by omega
      calc (acc * 256 + b + 1) * 256 ^ r.length
          ≤ (acc + 1) * 256 * 256 ^ r.length := Nat.mul_le_mul_right _ this
        _ = (acc + 1) * 256 ^ (r.length + 1) := by ring
    calc (b :: r).foldl (fun a b => a * 256 + b) acc
        = r.foldl (fun a b => a * 256 + b) (acc * 256 + b) := rfl
      _ < (acc * 256 + b + 1) * 256 ^ r.length := h1
      _ ≤ (acc + 1) * 256 ^ (r.length + 1) := h2
      _ = (acc + 1) * 256 ^ (b :: r).length := by simp

/-- `int.from_bytes` of at most four bytes is below `2^32`. -/
theorem intFromBytesBig_lt (l : List Nat) (hb : ∀ b ∈ l, b < 256)
    (hl : l.length ≤ 4) : intFromBytesBig l < 4294967296 := by
  have h := foldl_bytes_lt l hb 0
  have h2 : 256 ^ l.length ≤ 256 ^ 4 := Nat.pow_le_pow_right (by norm_num) hl
  calc intFromBytesBig l < (0 + 1) * 256 ^ l.length := h
    _ = 256 ^ l.length := by ring
    _ ≤ 256 ^ 4 := h2
    _ = 4294967296 := by norm_num

/-- C9: every hash-derived pseudo-coordinate lies in the fixed rectangle
`lat ∈ [24.5, 48.5]`, `lng ∈ [-124.8, -66.3]`, hence inside the valid
lat/lng ranges, for any digest producing bytes (as SHA-256 does). -/
theorem hashToPoint_in_rectangle (digest : String → List Nat)
    (hd : ∀ s, ∀ b ∈ digest s, b < 256) (address : String) :
    (24.5 ≤ (hashToPoint digest address).lat ∧
      (hashToPoint digest address).lat ≤ 48.5 ∧
      -124.8 ≤ (hashToPoint digest address).lng ∧
      (hashToPoint digest address).lng ≤ -66.3) ∧
    (-90 ≤ (hashToPoint digest address).lat ∧
      (hashToPoint digest address).lat ≤ 90 ∧
      -180 ≤ (hashToPoint digest address).lng ∧
      (hashToPoint digest address).lng ≤ 180) := by
  have hlat : intFromBytesBig (((digest address).drop 0).take 4) < 4294967296 := by
    refine intFromBytesBig_lt _ (fun b hb => hd address b ?_) ?_
    · exact List.mem_of_mem_drop (List.mem_of_mem_take hb)
    · simpa using List.length_take_le 4 _
  have hlng : intFromBytesBig (((digest address).drop 4).take 4) < 4294967296 := by
    refine intFromBytesBig_lt _ (fun b hb => hd address b ?_) ?_
    · exact List.mem_of_mem_drop (List.mem_of_mem_take hb)
    · simpa using List.length_take_le 4 _
  have hlatn : intFromBytesBig (((digest address).drop 0).take 4) ≤ 4294967295 := by
    omega
  have hlngn : intFromBytesBig (((digest address).drop 4).take 4) ≤ 4294967295 := by
    omega
  have hlatq0 : (0 : ℚ) ≤ (intFromBytesBig (((digest address).drop 0).take 4) : ℤ) := by
    positivity
  have hlatq1 : ((intFromBytesBig (((digest address).drop 0).take 4) : ℤ) : ℚ) ≤
      4294967295 := by exact_mod_cast hlatn
  have hlngq0 : (0 : ℚ) ≤ (intFromBytesBig (((digest address).drop 4).take 4) : ℤ) := by
    positivity
  have hlngq1 : ((intFromBytesBig (((digest address).drop 4).take 4) : ℤ) : ℚ) ≤
      4294967295 := by exact_mod_cast hlngn
  simp only [hashToPoint]
  set a : ℚ := ((intFromBytesBig (((digest address).drop 0).take 4) : ℤ) : ℚ) with ha
  set b : ℚ := ((intFromBytesBig (((digest address).drop 4).take 4) : ℤ) : ℚ) with hb
  have hra0 : (0 : ℚ) ≤ a / 0xFFFFFFFF := by positivity
  have hra1 : a / 0xFFFFFFFF ≤ 1 := by
    rw [div_le_one (by norm_num)]
    exact_mod_cast hlatq1
  have hrb0 : (0 : ℚ) ≤ b / 0xFFFFFFFF := by positivity
  have hrb1 : b / 0xFFFFFFFF ≤ 1 := by
    rw [div_le_one (by norm_num)]
    exact_mod_cast hlngq1
  refine ⟨⟨?_, ?_, ?_, ?_⟩, ?_, ?_, ?_, ?_⟩ <;> nlinarith

/-- Witness for C9 with a concrete all-zero 32-byte digest. -/
theorem hashToPoint_in_rectangle_witness :
    (∀ s : String, ∀ b ∈ (fun _ : String => List.replicate 32 0) s, b < 256) ∧
    24.5 ≤ (hashToPoint (fun _ : String => List.replicate 32 0) "main st").lat ∧
    (hashToPoint (fun _ : String => List.replicate 32 0) "main st").lat ≤ 48.5 ∧
    -124.8 ≤ (hashToPoint (fun _ : String => List.replicate 32 0) "main st").lng ∧
    (hashToPoint (fun _ : String => List.replicate 32 0) "main st").lng ≤ -66.3 :=
  ⟨fun _ b hb => by rw [List.eq_of_mem_replicate hb]; norm_num,
   (hashToPoint_in_rectangle (fun _ : String => List.replicate 32 0)
     (fun _ b hb => by rw [List.eq_of_mem_replicate hb]; norm_num) "main st").1⟩

/-! ## C8: a cached failure and a cached success are mutually exclusive -/

/-- The mutual-exclusion invariant on the geocoder caches: an address in the
failure map has no override binding. -/
def cacheExclusive (st : GeocoderState) : Prop :=
  ∀ k, k ∈ st.failures → k ∉ st.overrides.map Prod.fst

/-- The freshly constructed geocoder satisfies the invariant. -/
theorem cacheExclusive_empty : cacheExclusive emptyGeocoderState := by
  intro k hk
  simp [emptyGeocoderState] at hk

/-- Each cache operation preserves the invariant. -/
theorem cacheExclusive_applyOp (st : GeocoderState) (op : GeocoderOp)
    (h : cacheExclusive st) : cacheExclusive (applyOp st op) := by
  cases op with
  | override a lat lng =>
    intro k hk
    simp only [applyOp, setOverride, List.mem_filter, decide_eq_true_eq] at hk
    obtain ⟨hk1, hk2⟩ := hk
    simp only [applyOp, setOverride, List.map_cons, List.mem_cons]
    push_neg
    refine ⟨hk2, fun hmem => ?_⟩
    obtain ⟨p, hp, hfst⟩ := List.mem_map.mp hmem
    exact h k hk1 (List.mem_map.mpr ⟨p, (List.mem_filter.mp hp).1, hfst⟩)
  | failure a =>
    intro k hk
    simp only [applyOp, setFailure, List.mem_cons, List.mem_filter,
      decide_eq_true_eq] at hk
    simp only [applyOp, setFailure]
    rcases hk with hk | ⟨hk1, hk2⟩
    · subst hk
      intro hmem
      obtain ⟨p, hp, hfst⟩ := List.mem_map.mp hmem
      have := (List.mem_filter.mp hp).2
      simp only [decide_eq_true_eq] at this
      exact this hfst
    · intro hmem
      obtain ⟨p, hp, hfst⟩ := List.mem_map.mp hmem
      exact h k hk1 (List.mem_map.mpr ⟨p, (List.mem_filter.mp hp).1, hfst⟩)
  | reset =>
    intro k hk
    simp [applyOp, emptyGeocoderState] at hk

/-- Any sequence of cache operations preserves the invariant. -/
theorem cacheExclusive_applyOps (ops : List GeocoderOp) :
    ∀ st : GeocoderState, cacheExclusive st → cacheExclusive (applyOps st ops) := by
  induction ops with
  | nil => intro st h; exact h
  | cons op rest ih =>
    intro st h
    exact ih (applyOp st op) (cacheExclusive_applyOp st op h)

/-- C8: after any sequence of `set_override`, `set_failure` and `reset`
operations from the empty state, no normalized address is in both the
override map and the failure map. -/
theorem geocoder_cache_mutually_exclusive (ops : List GeocoderOp) (k : String)
    (hk : k ∈ (applyOps emptyGeocoderState ops).failures) :
    k ∉ (applyOps emptyGeocoderState ops).overrides.map Prod.fst :=
  cacheExclusive_applyOps ops emptyGeocoderState cacheExclusive_empty k hk

/-- Witness for C8 at a concrete operation sequence that overrides an
address and then marks it failed. -/
theorem geocoder_cache_mutually_exclusive_witness :
    "17 elm st" ∉
      (applyOps emptyGeocoderState
        [.override "17 Elm St" 1 2, .failure "17  ELM  st"]).overrides.map
        Prod.fst :=
  geocoder_cache_mutually_exclusive
    [.override "17 Elm St" 1 2, .failure "17  ELM  st"] "17 elm st" (by decide)

/-! ## String lemmas for the geocoder -/

/-- A `dropWhile` remainder is all-`p` exactly when the whole list is. -/
theorem allWs_dropWhile (p : Char → Bool) (l : List Char) :
    (∀ c ∈ l.dropWhile p, p c = true) ↔ ∀ c ∈ l, p c = true := by
  constructor
  · intro h
    induction l with
    | nil => simp
    | cons c r ih =>
      by_cases hp : p c = true
      · rw [List.dropWhile_cons, if_pos hp] at h
        intro x hx
        rcases List.mem_cons.mp hx with rfl | hx
        · exact hp
        · exact ih h x hx
      · rw [List.dropWhile_cons, if_neg hp] at h
        exact h
  · intro h c hc
    exact h c ((List.dropWhile_sublist p).mem hc)

/-- Stripping yields the empty list exactly when everything is whitespace. -/
theorem pyStripList_eq_nil_iff (l : List Char) :
    pyStripList l = [] ↔ ∀ c ∈ l, c.isWhitespace = true := by
  rw [pyStripList, List.reverse_eq_nil_iff, List.dropWhile_eq_nil_iff]
  simp only [List.mem_reverse]
  exact allWs_dropWhile _ l

/-- The stripped list is all-whitespace exactly when the original is. -/
theorem allWs_pyStripList_iff (l : List Char) :
    (∀ c ∈ pyStripList l, c.isWhitespace = true) ↔
      ∀ c ∈ l, c.isWhitespace = true := by
  rw [pyStripList]
  simp only [List.mem_reverse]
  rw [allWs_dropWhile]
  simp only [List.mem_reverse]
  exact allWs_dropWhile _ l

/-- The split worker never returns the empty word list when a word is in
progress. -/
theorem pySplitAux_ne_nil (l : List Char) :
    ∀ cur : List Char, cur ≠ [] → pySplitAux l cur ≠ [] := by
  induction l with
  | nil =>
    intro cur hcur
    simp [pySplitAux, hcur]
  | cons c r ih =>
    intro cur hcur
    rw [pySplitAux]
    by_cases hw : c.isWhitespace
    · simp [hw, hcur]
    · exact fun h => ih (c :: cur) (by simp) (by simpa [hw] using h)

/-- `str.split()` returns no words exactly when the input is all
whitespace. -/
theorem pySplit_eq_nil_iff (l : List Char) :
    pySplit l = [] ↔ ∀ c ∈ l, c.isWhitespace = true := by
  rw [pySplit]
  constructor
  · intro h
    induction l with
    | nil => simp
    | cons c r ih =>
      rw [pySplitAux] at h
      by_cases hw : c.isWhitespace
      · simp only [hw, if_pos, if_true, reduceIte] at h
        intro x hx
        rcases List.mem_cons.mp hx with rfl | hx
        · exact hw
        · exact ih h x hx
      · exfalso
        apply pySplitAux_ne_nil r [c] (by simp)
        simpa [hw] using h
  · intro h
    induction l with
    | nil => rfl
    | cons c r ih =>
      have hw : c.isWhitespace = true := h c (by simp)
      rw [pySplitAux]
      simp only [hw, if_true, reduceIte]
      exact ih fun x hx => h x (by simp [hx])

/-- Every word produced by the split worker is nonempty. -/
theorem pySplitAux_mem_ne_nil (l : List Char) :
    ∀ (cur : List Char) (w : List Char), w ∈ pySplitAux l cur →
      (cur = [] → w ≠ []) ∧ (cur ≠ [] → w ≠ [] ∨ w = cur.reverse) := by
  induction l with
  | nil =>
    intro cur w hw
    by_cases hcur : cur = []
    · simp [pySplitAux, hcur] at hw
    · simp only [pySplitAux, if_neg hcur, List.mem_singleton] at hw
      subst hw
      exact ⟨fun h => absurd h hcur, fun _ => Or.inr rfl⟩
  | cons c r ih =>
    intro cur w hw
    rw [pySplitAux] at hw
    by_cases hws : c.isWhitespace
    · simp only [hws, if_true, reduceIte] at hw
      by_cases hcur : cur = []
      · rw [if_pos hcur] at hw
        exact ⟨fun _ => (ih [] w hw).1 rfl, fun h => Or.inl ((ih [] w hw).1 rfl)⟩
      · rw [if_neg hcur] at hw
        rcases List.mem_cons.mp hw with rfl | hw
        · constructor
          · intro h; exact absurd h hcur
          · intro _; exact Or.inr rfl
        · exact ⟨fun _ => (ih [] w hw).1 rfl, fun _ => Or.inl ((ih [] w hw).1 rfl)⟩
    · simp only [hws, Bool.false_eq_true, if_false, reduceIte] at hw
      have h2 := (ih (c :: cur) w hw).2 (by simp)
      rcases h2 with h2 | h2
      · exact ⟨fun _ => h2, fun _ => Or.inl h2⟩
      · subst h2
        constructor
        · intro _
          simp
        · intro _
          left
          simp

/-- Every word of `pySplit` is nonempty. -/
theorem pySplit_mem_ne_nil (l : List Char) (w : List Char)
    (hw : w ∈ pySplit l) : w ≠ [] :=
  (pySplitAux_mem_ne_nil l [] w hw).1 rfl

/-- `intercalate` over nonempty words is empty only for the empty word
list. -/
theorem intercalate_eq_nil_iff (ws : List (List Char))
    (h : ∀ w ∈ ws, w ≠ []) : List.intercalate [' '] ws = [] ↔ ws = [] := by
  cases ws with
  | nil => simp [List.intercalate]
  | cons w rest =>
    simp only [List.cons_ne_nil, iff_false]
    have hw : w ≠ [] := h w (by simp)
    cases rest with
    | nil =>
      simpa [List.intercalate] using hw
    | cons x xs =>
      rw [List.intercalate, List.intersperse_cons_cons]
      simp [hw]

/-- Equality of a built string with the empty string is emptiness of its
character list. -/
theorem strMk_eq_empty_iff (l : List Char) : String.mk l = "" ↔ l = [] := by
  rw [String.ext_iff]

/-- The normalized address is empty exactly when the stripped address is. -/
theorem normalizeAddress_eq_empty_iff (s : String) :
    normalizeAddress s = "" ↔ pyStrip s = "" := by
  have h1 : normalizeAddress s = "" ↔
      List.intercalate [' '] (pySplit (pyStripList s.toList)) = [] := by
    rw [normalizeAddress, strMk_eq_empty_iff, List.map_eq_nil_iff]
  have h2 : pyStrip s = "" ↔ pyStripList s.toList = [] := by
    rw [pyStrip, strMk_eq_empty_iff]
  rw [h1, h2, intercalate_eq_nil_iff _ (pySplit_mem_ne_nil _),
    pySplit_eq_nil_iff, pyStripList_eq_nil_iff, allWs_pyStripList_iff]

/-! ## C6: geocoding is normalization-invariant (hence idempotent) -/

/-- C6: two addresses that are not inline lat,lng pairs and agree after
normalization geocode identically; with no override and no failure cached
for the normalized form, the result is the deterministic hash-derived point
(and `none` only for whitespace-only input, which normalizes to the empty
string).  Repeated calls are trivially identical because `geocode` never
writes the caches. -/
theorem geocode_normalization_invariant (digest : String → List Nat)
    (st : GeocoderState) (a b : String)
    (ha : parseInlineLatLng a = none) (hb : parseInlineLatLng b = none)
    (hab : normalizeAddress a = normalizeAddress b)
    (hf : st.failures.contains (normalizeAddress a) = false)
    (ho : st.overrides.lookup (normalizeAddress a) = none) :
    geocode digest st a = geocode digest st b ∧
    geocode digest st a =
      (if pyStrip a = "" then none
       else some (hashToPoint digest (normalizeAddress a))) := by
  by_cases hempty : pyStrip a = ""
  · have hna : normalizeAddress a = "" := (normalizeAddress_eq_empty_iff a).mpr hempty
    have hnb : normalizeAddress b = "" := hab ▸ hna
    have hbempty : pyStrip b = "" := (normalizeAddress_eq_empty_iff b).mp hnb
    rw [geocode, if_pos (Or.inr hempty), geocode, if_pos (Or.inr hbempty)]
    simp [hempty]
  · have hna : normalizeAddress a ≠ "" :=
      fun h => hempty ((normalizeAddress_eq_empty_iff a).mp h)
    have hbempty : pyStrip b ≠ "" := by
      intro h
      exact hna (hab ▸ (normalizeAddress_eq_empty_iff b).mpr h)
    have hca : ¬(a = "" ∨ pyStrip a = "") := by
      rintro (rfl | h)
      · exact hempty rfl
      · exact hempty h
    have hcb : ¬(b = "" ∨ pyStrip b = "") := by
      rintro (rfl | h)
      · exact hbempty rfl
      · exact hbempty h
    rw [geocode, if_neg hca, ha, geocode, if_neg hcb, hb]
    rw [if_neg hempty]
    simp only [← hab, hf, Bool.false_eq_true, if_false, reduceIte, ho]
    exact ⟨trivial, trivial⟩

/-- Witness for C6 at two concrete casing/whitespace variants of the same
address, on the fresh geocoder. -/
theorem geocode_normalization_invariant_witness :
    geocode (fun _ => []) emptyGeocoderState "42 Oak Ave" =
      geocode (fun _ => []) emptyGeocoderState " 42  OAK  ave " :=
  (geocode_normalization_invariant (fun _ => []) emptyGeocoderState
    "42 Oak Ave" " 42  OAK  ave " (by decide) (by decide) (by decide)
    (by decide) (by decide)).1

/-! ## C10: out-of-range inline pairs fall through to the free-text path -/

/-- A string matched by the inline lat,lng regex is not whitespace-only. -/
theorem parseInlinePair_strip_ne_empty {s : String} {v : ℚ × ℚ}
    (h : parseInlinePair s = some v) : pyStrip s ≠ "" := by
  intro he
  have hall : ∀ c ∈ s.toList, c.isWhitespace = true := by
    rw [← pyStripList_eq_nil_iff]
    rw [pyStrip, strMk_eq_empty_iff] at he
    exact he
  have hskip : skipWs s.toList = [] := by
    rw [skipWs, List.dropWhile_eq_nil_iff]
    exact hall
  rw [parseInlinePair, hskip] at h
  simp [parseNumber] at h

/-- C10: an address parsing as two comma-separated numbers outside the
valid ranges is not returned as an inline pair; the geocoder treats it as
free text, consulting the failure and override caches for its normalized
form and otherwise returning the hash-derived coordinate. -/
theorem geocode_invalid_inline_pair (digest : String → List Nat)
    (st : GeocoderState) (address : String) (lat lng : ℚ)
    (hp : parseInlinePair address = some (lat, lng))
    (hv : isValidLatLng lat lng = false) :
    parseInlineLatLng address = none ∧
    geocode digest st address =
      (if st.failures.contains (normalizeAddress address) then none
       else
         match st.overrides.lookup (normalizeAddress address) with
         | some p => some p
         | none => some (hashToPoint digest (normalizeAddress address))) := by
  have hinline : parseInlineLatLng address = none := by
    rw [parseInlineLatLng, hp]
    simp [hv]
  have hstrip : pyStrip address ≠ "" := parseInlinePair_strip_ne_empty hp
  have hca : ¬(address = "" ∨ pyStrip address = "") := by
    rintro (rfl | h)
    · exact hstrip rfl
    · exact hstrip h
  refine ⟨hinline, ?_⟩
  rw [geocode, if_neg hca, hinline]

/-- Witness for C10 at the concrete out-of-range pair `"91,0"` on the fresh
geocoder. -/
theorem geocode_invalid_inline_pair_witness :
    parseInlineLatLng "91,0" = none ∧
    geocode (fun _ => []) emptyGeocoderState "91,0" =
      some (hashToPoint (fun _ => []) (normalizeAddress "91,0")) := by
  have h := geocode_invalid_inline_pair (fun _ => []) emptyGeocoderState
    "91,0" 91 0 (by decide) (by decide)
  exact ⟨h.1, by simpa using h.2⟩

/-! ## C7: geocoding failures are aggregated, never fail-fast -/

/-- The unresolved-id list collected by the stops loop is the accumulator
followed by the ids of exactly the failing orders, provided every cache
entry agrees with the geocoder (which holds because the cache only ever
stores geocoder results). -/
theorem stopsLoop_unresolved (g : String → Option GeocodePoint) :
    ∀ (rest : List Order) (cache : List (String × Option GeocodePoint))
      (unresolved : List String) (stops : List RouteStopInput),
      (∀ k v, (k, v) ∈ cache → v = g k) →
      (stopsLoop g rest cache unresolved stops).1 =
        unresolved ++ (rest.filter (unresolvedOrder g)).map Order.id := by
  intro rest
  induction rest with
  | nil =>
    intro cache unresolved stops hc
    simp [stopsLoop]
  | cons o t ih =>
    intro cache unresolved stops hc
    by_cases hd : pyStrip (o.delivery.getD "") = ""
    · have ho : unresolvedOrder g o = true := by simp [unresolvedOrder, hd]
      rw [stopsLoop]
      simp only [hd, if_true, reduceIte]
      rw [ih cache _ _ hc, List.filter_cons, if_pos ho]
      simp
    · cases hl : cache.lookup (pyStrip (o.delivery.getD "")) with
      | some p =>
        have hp : p = g (pyStrip (o.delivery.getD "")) := hc _ _ (lookup_mem hl)
        rw [stopsLoop]
        simp only [hd, reduceIte, hl, hp]
        cases hg : g (pyStrip (o.delivery.getD "")) with
        | none =>
          have ho : unresolvedOrder g o = true := by
            simp [unresolvedOrder, hd, hg]
          rw [ih cache _ _ hc, List.filter_cons, if_pos ho]
          simp
        | some q =>
          have ho : unresolvedOrder g o = false := by
            simp [unresolvedOrder, hd, hg]
          rw [ih cache _ _ hc, List.filter_cons, if_neg (by simp [ho])]
      | none =>
        have hc2 : ∀ k v,
            (k, v) ∈ cache ++ [(pyStrip (o.delivery.getD ""),
              g (pyStrip (o.delivery.getD "")))] → v = g k := by
          intro k v hkv
          rcases List.mem_append.mp hkv with hkv | hkv
          · exact hc k v hkv
          · simp only [List.mem_singleton, Prod.mk.injEq] at hkv
            rw [hkv.2, hkv.1]
        rw [stopsLoop]
        simp only [hd, reduceIte, hl]
        cases hg : g (pyStrip (o.delivery.getD "")) with
        | none =>
          have ho : unresolvedOrder g o = true := by
            simp [unresolvedOrder, hd, hg]
          rw [hg] at hc2
          rw [ih _ _ _ hc2, List.filter_cons, if_pos ho]
          simp
        | some q =>
          have ho : unresolvedOrder g o = false := by
            simp [unresolvedOrder, hd, hg]
          rw [hg] at hc2
          rw [ih _ _ _ hc2, List.filter_cons, if_neg (by simp [ho])]

/-- C7: if any assigned order has an empty or un-geocodable delivery
address, the request fails with a single error listing the ids of every
failing order (and no stop list is returned). -/
theorem stops_failure_aggregation (g : String → Option GeocodePoint)
    (assigned : List Order)
    (h : ∃ o ∈ assigned, unresolvedOrder g o = true) :
    stopsFromAssignedOrders g assigned =
      .error ("Unable to geocode delivery addresses for assigned orders: " ++
        String.intercalate ", "
          ((assigned.filter (unresolvedOrder g)).map Order.id)) := by
  obtain ⟨o, ho, hu⟩ := h
  have hne : assigned ≠ [] := by
    rintro rfl
    simp at ho
  have hl := stopsLoop_unresolved g assigned [] [] [] (by simp)
  rw [List.nil_append] at hl
  have hmem : o.id ∈ (assigned.filter (unresolvedOrder g)).map Order.id :=
    List.mem_map.mpr ⟨o, List.mem_filter.mpr ⟨ho, hu⟩, rfl⟩
  have hne2 : (assigned.filter (unresolvedOrder g)).map Order.id ≠ [] :=
    List.ne_nil_of_mem hmem
  rw [stopsFromAssignedOrders, if_neg hne]
  simp only [hl, if_neg hne2, reduceIte]

/-- Witness for C7: three assigned orders of which exactly two (an
unresolvable address and a missing address) fail, both ids reported in one
error. -/
theorem stops_failure_aggregation_witness :
    stopsFromAssignedOrders
      (fun s => if s = "addr3" then some ⟨1, 2, "t"⟩ else none)
      [⟨"o1", some "addr1"⟩, ⟨"o2", none⟩, ⟨"o3", some "addr3"⟩] =
      .error "Unable to geocode delivery addresses for assigned orders: o1, o2" := by
  have h := stops_failure_aggregation
    (fun s => if s = "addr3" then some ⟨1, 2, "t"⟩ else none)
    [⟨"o1", some "addr1"⟩, ⟨"o2", none⟩, ⟨"o3", some "addr3"⟩]
    (by decide)
  rw [h]
  rfl

/-! ## C5: approximation matrices are square, zero-diagonal and symmetric -/

noncomputable section HaversineProofs

/-- `m[i][j]` in a real matrix (default 0). -/
def cellR (m : List (List ℝ)) (i j : Nat) : ℝ := (m.getD i []).getD j 0

/-- The haversine distance is symmetric in its two points. -/
theorem haversine_symm (aLat aLng bLat bLng : ℝ) :
    haversine_meters aLat aLng bLat bLng =
      haversine_meters bLat bLng aLat aLng := by
  have e1 : radians (aLat - bLat) / 2 = -(radians (bLat - aLat) / 2) := by
    rw [radians, radians]; ring
  have e2 : radians (aLng - bLng) / 2 = -(radians (bLng - aLng) / 2) := by
    rw [radians, radians]; ring
  have h : Real.sin (radians (bLat - aLat) / 2) ^ 2 +
      Real.cos (radians aLat) * Real.cos (radians bLat) *
        Real.sin (radians (bLng - aLng) / 2) ^ 2 =
      Real.sin (radians (aLat - bLat) / 2) ^ 2 +
      Real.cos (radians bLat) * Real.cos (radians aLat) *
        Real.sin (radians (aLng - bLng) / 2) ^ 2 := by
    rw [e1, e2, Real.sin_neg, Real.sin_neg]
    ring
  simp only [haversine_meters]
  rw [h]

end HaversineProofs

/-- C5: the approximation provider returns square `n × n` matrices with zero
diagonal, both matrices are symmetric, and every duration entry is the
distance entry divided by the fixed speed. -/
theorem calculate_matrix_spec (points : List (ℝ × ℝ)) :
    (calculate_matrix points).source = "haversine-dev" ∧
    (calculate_matrix points).distance_meters.length = points.length ∧
    (∀ row ∈ (calculate_matrix points).distance_meters,
      row.length = points.length) ∧
    (calculate_matrix points).duration_seconds.length = points.length ∧
    (∀ row ∈ (calculate_matrix points).duration_seconds,
      row.length = points.length) ∧
    (∀ i, i < points.length →
      cellR (calculate_matrix points).distance_meters i i = 0 ∧
      cellR (calculate_matrix points).duration_seconds i i = 0) ∧
    (∀ i j, i < points.length → j < points.length →
      cellR (calculate_matrix points).distance_meters i j =
        cellR (calculate_matrix points).distance_meters j i ∧
      cellR (calculate_matrix points).duration_seconds i j =
        cellR (calculate_matrix points).duration_seconds j i) ∧
    (∀ i j, i < points.length → j < points.length →
      cellR (calculate_matrix points).duration_seconds i j =
        cellR (calculate_matrix points).distance_meters i j /
          speedMetersPerSecond) := by
  have hd : ∀ i j, i < points.length → j < points.length →
      cellR (calculate_matrix points).distance_meters i j =
        if i = j then 0
        else haversine_meters (points.getD i (0, 0)).2 (points.getD i (0, 0)).1
          (points.getD j (0, 0)).2 (points.getD j (0, 0)).1 := by
    intro i j hi hj
    rw [cellR]
    simp only [calculate_matrix]
    rw [getD_map_range _ _ hi, getD_map_range _ _ hj]
  have ht : ∀ i j, i < points.length → j < points.length →
      cellR (calculate_matrix points).duration_seconds i j =
        if i = j then 0
        else haversine_meters (points.getD i (0, 0)).2 (points.getD i (0, 0)).1
          (points.getD j (0, 0)).2 (points.getD j (0, 0)).1 /
            speedMetersPerSecond := by
    intro i j hi hj
    rw [cellR]
    simp only [calculate_matrix]
    rw [getD_map_range _ _ hi, getD_map_range _ _ hj]
  refine ⟨rfl, by simp [calculate_matrix], ?_, by simp [calculate_matrix], ?_,
    ?_, ?_, ?_⟩
  · intro row hrow
    simp only [calculate_matrix, List.mem_map, List.mem_range] at hrow
    obtain ⟨i, _, rfl⟩ := hrow
    simp
  · intro row hrow
    simp only [calculate_matrix, List.mem_map, List.mem_range] at hrow
    obtain ⟨i, _, rfl⟩ := hrow
    simp
  · intro i hi
    rw [hd i i hi hi, ht i i hi hi]
    simp
  · intro i j hi hj
    rw [hd i j hi hj, hd j i hj hi, ht i j hi hj, ht j i hj hi]
    by_cases hij : i = j
    · subst hij
      simp
    · rw [if_neg hij, if_neg (Ne.symm hij), if_neg hij, if_neg (Ne.symm hij),
        haversine_symm]
      exact ⟨rfl, rfl⟩
  · intro i j hi hj
    rw [hd i j hi hj, ht i j hi hj]
    by_cases hij : i = j
    · subst hij
      simp
    · rw [if_neg hij, if_neg hij]

/-- Witness for C5 at two concrete points. -/
theorem calculate_matrix_spec_witness :
    cellR (calculate_matrix [((0 : ℝ), 0), (1, 2)]).distance_meters 0 0 = 0 ∧
    cellR (calculate_matrix [((0 : ℝ), 0), (1, 2)]).distance_meters 0 1 =
      cellR (calculate_matrix [((0 : ℝ), 0), (1, 2)]).distance_meters 1 0 ∧
    cellR (calculate_matrix [((0 : ℝ), 0), (1, 2)]).duration_seconds 0 1 =
      cellR (calculate_matrix [((0 : ℝ), 0), (1, 2)]).distance_meters 0 1 /
        speedMetersPerSecond := by
  have h := calculate_matrix_spec [((0 : ℝ), 0), (1, 2)]
  exact ⟨(h.2.2.2.2.2.1 0 (by norm_num)).1,
    (h.2.2.2.2.2.2.1 0 1 (by norm_num) (by norm_num)).1,
    h.2.2.2.2.2.2.2 0 1 (by norm_num) (by norm_num)⟩

/-! ## C1: stop-set preservation and dense sequence numbering -/

/-- The order ids emitted by the assembly loop are those of the nonzero
sequence nodes, mapped through `stops[node - 1]`, appended to the
accumulator's. -/
theorem assembleLoop_map_orderId (stops : List RouteStopInput)
    (dist dur : List (List ℚ)) :
    ∀ (seq : List Nat) (prev : Nat) (acc : List RouteOptimizedStop) (td tt : ℚ),
      ((assembleLoop stops dist dur seq prev acc td tt).1).map
          RouteOptimizedStop.order_id =
        acc.map RouteOptimizedStop.order_id ++
          (seq.filter (fun n => n ≠ 0)).map
            (fun n => (stops.getD (n - 1) defaultStop).order_id) := by
  intro seq
  induction seq with
  | nil =>
    intro prev acc td tt
    simp [assembleLoop]
  | cons node rest ih =>
    intro prev acc td tt
    by_cases h0 : node = 0
    · subst h0
      rw [assembleLoop]
      simp only [if_pos rfl, reduceIte]
      rw [ih]
      simp
    · rw [assembleLoop]
      simp only [h0, reduceIte]
      rw [ih]
      simp [h0]

/-- The sequence numbers emitted by the assembly loop continue densely from
the accumulator's length. -/
theorem assembleLoop_map_sequence (stops : List RouteStopInput)
    (dist dur : List (List ℚ)) :
    ∀ (seq : List Nat) (prev : Nat) (acc : List RouteOptimizedStop) (td tt : ℚ),
      ((assembleLoop stops dist dur seq prev acc td tt).1).map
          RouteOptimizedStop.sequence =
        acc.map RouteOptimizedStop.sequence ++
          List.range' (acc.length + 1) ((seq.filter (fun n => n ≠ 0)).length) := by
  intro seq
  induction seq with
  | nil =>
    intro prev acc td tt
    simp [assembleLoop]
  | cons node rest ih =>
    intro prev acc td tt
    by_cases h0 : node = 0
    · subst h0
      rw [assembleLoop]
      simp only [if_pos rfl, reduceIte]
      rw [ih]
      simp
    · rw [assembleLoop]
      simp only [h0, reduceIte]
      rw [ih]
      simp [List.filter_cons, h0, List.range'_succ]

/-- C1: when the solver returns a sequence that starts at node 0, whose
nodes index the stop list, and that visits each real stop node exactly
once, the assembled response's ordered stops carry exactly the input stops'
order ids (each exactly once) and their sequence numbers are exactly
`1, 2, ..., N`. -/
theorem assembleResponse_stop_set (source : String)
    (stops : List RouteStopInput) (dist dur : List (List ℚ)) (seq : List Nat)
    (hhead : seq.head? = some 0)
    (hmem : ∀ n ∈ seq, n ≤ stops.length)
    (hcount : ∀ n ∈ List.range' 1 stops.length, seq.count n = 1) :
    ((assembleResponse source stops dist dur seq).ordered_stops.map
        RouteOptimizedStop.order_id).Perm
      (stops.map RouteStopInput.order_id) ∧
    (assembleResponse source stops dist dur seq).ordered_stops.map
        RouteOptimizedStop.sequence = List.range' 1 stops.length := by
  have hperm : (seq.filter (fun n => n ≠ 0)).Perm
      (List.range' 1 stops.length) := by
    rw [List.perm_iff_count]
    intro a
    by_cases ha0 : a = 0
    · subst ha0
      rw [List.count_eq_zero.mpr, List.count_eq_zero.mpr]
      · intro hmem0
        rw [List.mem_range'_1] at hmem0
        omega
      · intro hmem0
        simp at hmem0
    · have hfa : (fun n => decide (n ≠ 0)) a = true := by simp [ha0]
      by_cases hin : a ∈ List.range' 1 stops.length
      · rw [List.count_filter (p := fun n => decide (n ≠ 0)) hfa, hcount a hin,
          List.count_eq_one_of_mem (List.nodup_range' 1 stops.length) hin]
      · rw [List.count_filter (p := fun n => decide (n ≠ 0)) hfa,
          List.count_eq_zero.mpr, List.count_eq_zero.mpr hin]
        intro hseq
        apply hin
        rw [List.mem_range'_1]
        have := hmem a hseq
        omega
  have hlen : (seq.filter (fun n => n ≠ 0)).length = stops.length := by
    rw [hperm.length_eq, List.length_range']
  have hids := assembleLoop_map_orderId stops dist dur seq (seq.headD 0) [] 0 0
  have hseqn := assembleLoop_map_sequence stops dist dur seq (seq.headD 0) [] 0 0
  simp only [List.map_nil, List.nil_append, List.length_nil, Nat.zero_add]
    at hids hseqn
  have hmapids : (List.range' 1 stops.length).map
      (fun k => (stops.getD (k - 1) defaultStop).order_id) =
      stops.map RouteStopInput.order_id := by
    rw [List.range'_eq_map_range, List.map_map]
    apply List.ext_getElem
    · simp
    · intro k h1 h2
      simp only [List.getElem_map, List.getElem_range, Function.comp_apply]
      rw [show 1 + k - 1 = k by omega,
        List.getD_eq_getElem _ _ (by simpa using h2)]
  have hordlen : ((assembleLoop stops dist dur seq (seq.headD 0) [] 0 0).1).length
      = stops.length := by
    have hl := congrArg List.length hids
    simp only [List.length_map] at hl
    exact hl.trans hlen
  have hcond : ¬(((assembleLoop stops dist dur seq (seq.headD 0) [] 0 0).1 = []) ∧
      stops ≠ []) := by
    rintro ⟨h1, h2⟩
    apply h2
    apply List.eq_nil_of_length_eq_zero
    rw [← hordlen, h1]
    rfl
  have hresp : (assembleResponse source stops dist dur seq).ordered_stops =
      (assembleLoop stops dist dur seq (seq.headD 0) [] 0 0).1 := by
    rw [assembleResponse]
    simp only [if_neg hcond]
  rw [hresp]
  constructor
  · rw [hids, ← hmapids]
    exact hperm.map _
  · rw [hseqn, hlen]

/-- Witness for C1 at two concrete stops and the solver sequence
`[0, 2, 1]`. -/
theorem assembleResponse_stop_set_witness :
    ((assembleResponse "haversine-dev"
        [⟨"a", 0, 0, none⟩, ⟨"b", 1, 1, none⟩] [] [] [0, 2, 1]).ordered_stops.map
        RouteOptimizedStop.order_id).Perm ["a", "b"] ∧
    (assembleResponse "haversine-dev"
        [⟨"a", 0, 0, none⟩, ⟨"b", 1, 1, none⟩] [] [] [0, 2, 1]).ordered_stops.map
        RouteOptimizedStop.sequence = [1, 2] :=
  assembleResponse_stop_set "haversine-dev"
    [⟨"a", 0, 0, none⟩, ⟨"b", 1, 1, none⟩] [] [] [0, 2, 1]
    (by decide) (by decide) (by decide)

end Discra
